import Mathlib

/-!
Verification of the fractal-explorer core against its design spec.

The Rust source is shallowly embedded:
* `f64` arithmetic is modelled exactly over a linear ordered field `K`
  (instantiated at `ℚ` for concrete, decidable evaluation, and at `ℝ`
  where square roots, logarithms and `exp` are involved);
* Rust's saturating float-to-integer cast `as usize` is modelled by
  `Int.toNat ∘ floor`, which agrees with truncation toward zero after
  clamping at 0;
* complex numbers from `num_complex` become `Cplx K` (plain re/im pairs)
  on the grid side and Mathlib's `ℂ` on the dynamics side;
* fallible operations return `Option`.
-/

namespace Fractal

/-! ### Grid mapper: src/crates/common/src/point_grid.rs -/

/-- Complex re/im pair, modelling `num_complex::Complex<Real>` for the
grid component (only field arithmetic is needed there). -/
structure Cplx (K : Type) where
  re : K
  im : K
deriving DecidableEq, Repr

/-- Axis-aligned rectangle in the complex plane (`struct Bounds`). -/
structure Bounds (K : Type) where
  min_x : K
  max_x : K
  min_y : K
  max_y : K
deriving DecidableEq, Repr

variable {K : Type} [LinearOrderedField K] [FloorRing K]

def Bounds.range_x (b : Bounds K) : K := b.max_x - b.min_x

def Bounds.range_y (b : Bounds K) : K := b.max_y - b.min_y

def Bounds.mid_x (b : Bounds K) : K := (b.max_x + b.min_x) / 2

def Bounds.mid_y (b : Bounds K) : K := (b.max_y + b.min_y) / 2

def Bounds.center (b : Bounds K) : Cplx K := ⟨b.mid_x, b.mid_y⟩

/-- Rust's `as usize` on a float: truncation toward zero, saturating at 0
from below.  On nonnegative values this is the floor; on negative values
both truncation and flooring are clamped to 0 by `Int.toNat`. -/
def toUsize (x : K) : ℕ := (⌊x⌋).toNat

/-- `struct PointGrid`: a sampling resolution plus bounds. -/
structure PointGrid (K : Type) where
  res_x : ℕ
  res_y : ℕ
  bounds : Bounds K
deriving DecidableEq, Repr

def PointGrid.pixel_width (g : PointGrid K) : K := g.bounds.range_x / (g.res_x : K)

def PointGrid.pixel_height (g : PointGrid K) : K := g.bounds.range_y / (g.res_y : K)

/-- `PointGrid::map_pixel`: affine map from lattice indices to the plane
(`mul_add` is exact over `K`). -/
def PointGrid.map_pixel (g : PointGrid K) (pixel_x pixel_y : ℕ) : Cplx K :=
  ⟨(pixel_x : K) * g.pixel_width + g.bounds.min_x,
   (pixel_y : K) * g.pixel_height + g.bounds.min_y⟩

/-- `PointGrid::locate_point`: approximate inverse of `map_pixel`; note the
second coordinate is flipped to screen coordinates (`res_y - 1 - y`). -/
def PointGrid.locate_point (g : PointGrid K) (z : Cplx K) : K × K :=
  let x := (z.re - g.bounds.min_x) / g.pixel_width
  let y := (z.im - g.bounds.min_y) / g.pixel_height
  (x, (g.res_y : K) - 1 - y)

/-- `PointGrid::locate_point_safe`.  The guard reproduces the source
verbatim, including its `z.re < self.bounds.min_y` comparison. -/
def PointGrid.locate_point_safe (g : PointGrid K) (z : Cplx K) : Option (ℕ × ℕ) :=
  if g.bounds.max_x ≤ z.re ∨ z.re < g.bounds.min_x ∨ g.bounds.max_y ≤ z.im
      ∨ z.re < g.bounds.min_y then
    none
  else
    let x := (z.re - g.bounds.min_x) / g.pixel_width
    let y := (z.im - g.bounds.min_y) / g.pixel_height
    some (toUsize x, g.res_y - 1 - toUsize y)

/-- The composite `map_pixel ∘ (cast to lattice) ∘ locate_point` at the
center of the bounds, the round trip of the spec's §8 law. -/
def PointGrid.center_roundtrip (g : PointGrid K) : Cplx K :=
  let xy := g.locate_point g.bounds.center
  g.map_pixel (toUsize xy.1) (toUsize xy.2)

/-- `PointGrid::infer_height`: derive a height from a width, preserving
the aspect ratio (the float result is cast with `as usize`). -/
def PointGrid.infer_height (res_x : ℕ) (bounds : Bounds K) : ℕ :=
  toUsize ((res_x : K) * (bounds.max_y - bounds.min_y) / (bounds.max_x - bounds.min_x))

/-- `PointGrid::infer_width`. -/
def PointGrid.infer_width (res_y : ℕ) (bounds : Bounds K) : ℕ :=
  toUsize ((res_y : K) * (bounds.max_x - bounds.min_x) / (bounds.max_y - bounds.min_y))

def PointGrid.new_by_res_y (res_y : ℕ) (bounds : Bounds K) : PointGrid K :=
  ⟨PointGrid.infer_width res_y bounds, res_y, bounds⟩

def PointGrid.new_with_same_height (g : PointGrid K) (bounds : Bounds K) : PointGrid K :=
  PointGrid.new_by_res_y g.res_y bounds

/-- `struct PointGridIterator`: the traversal state of `PointGrid::iter`. -/
structure PointGridIterator (K : Type) where
  step_x : K
  step_y : K
  res_x : ℕ
  res_y : ℕ
  min_x : K
  min_y : K
  idx_x : ℕ
  idx_y : ℕ
deriving DecidableEq, Repr

/-- `PointGridIterator::new`. -/
def PointGridIterator.new (res_x res_y : ℕ) (bounds : Bounds K) : PointGridIterator K :=
  ⟨bounds.range_x / (res_x : K), bounds.range_y / (res_y : K),
   res_x, res_y, bounds.min_x, bounds.min_y, 0, 0⟩

/-- `<PointGridIterator as Iterator>::next`, returning the emitted item
together with the successor state.  The counters are advanced *before*
the item is produced, exactly as in the source. -/
def PointGridIterator.next (it : PointGridIterator K) :
    Option ((ℕ × ℕ) × Cplx K) × PointGridIterator K :=
  let ix := it.idx_x + 1
  let iy := it.idx_y + ix / it.res_x
  if iy = it.res_y then
    (none, { it with idx_x := ix, idx_y := iy })
  else
    let ix2 := ix % it.res_x
    (some ((ix2, iy), ⟨(ix2 : K) * it.step_x + it.min_x, (iy : K) * it.step_y + it.min_y⟩),
     { it with idx_x := ix2, idx_y := iy })

/-- Drive the iterator for at most `fuel` steps and collect its output. -/
def PointGridIterator.collect : ℕ → PointGridIterator K → List ((ℕ × ℕ) × Cplx K)
  | 0, _ => []
  | fuel + 1, it =>
    match it.next with
    | (none, _) => []
    | (some p, it2) => p :: PointGridIterator.collect fuel it2

/-- `PointGrid::iter`. -/
def PointGrid.iter (g : PointGrid K) : PointGridIterator K :=
  PointGridIterator.new g.res_x g.res_y g.bounds

/-! ### Quadratic family: src/profiles/src/polynomials/mandelbrot.rs

Floating-point complex arithmetic is modelled exactly over `ℂ`.  IEEE
special values collapse to Mathlib's junk-value conventions
(`Real.log 0 = 0`, `x / 0 = 0`); the claims below do not depend on the
fields affected by this (only `preperiod` is touched). -/

noncomputable section

/-- `num_complex::Complex::sqrt`: the principal square root in polar
form, `√|z| · exp(i·arg z / 2)`. -/
def csqrt (z : ℂ) : ℂ :=
  (Real.sqrt (Complex.abs z) : ℝ) * Complex.exp ((z.arg / 2 : ℝ) * Complex.I)

/-- The map `f_c(z) = z² + c` (`fn f` in mandelbrot.rs). -/
def f (z c : ℂ) : ℂ := z * z + c

/-- Its z-derivative (`fn df_dz`). -/
def df_dz (z _c : ℂ) : ℂ := z + z

/-- `PointInfoPeriodic` (fractal_common::types).  Modelled from the spec:
the `Periodic` outcome carries value, period, preperiod, multiplier and
the residual error at detection. -/
structure PointInfoPeriodic where
  value : ℂ
  period : ℕ
  preperiod : ℕ
  multiplier : ℂ
  final_error : ℝ

/-- `EscapeState` (fractal_common::types).  Modelled from the spec: the
classification outcome variants.  Only `NotYetEscaped` and `Periodic`
are produced by `early_bailout`. -/
inductive EscapeState where
  | NotYetEscaped
  | Escaping (potential : ℝ)
  | Periodic (data : PointInfoPeriodic)
  | Bounded
  | Wandering

/-- `Mandelbrot::early_bailout`: the closed-form membership tests for the
main cardioid and the basilica (period-2) bulb. -/
def Mandelbrot.early_bailout (c : ℂ) : EscapeState :=
  let four_c := 4 * c
  let y2 := four_c.im * four_c.im
  let temp := four_c.re - 1
  let mu_norm2 := temp * temp + y2
  let a := mu_norm2 * (mu_norm2 * 0.25 + temp)
  if a < y2 then
    -- Main cardioid
    let multiplier := 1 - csqrt (1 - four_c)
    let decay_rate := Complex.abs multiplier
    let fixed_point := 0.5 * multiplier
    let init_dist := Complex.normSq (c - fixed_point)
    let potential := Real.logb decay_rate init_dist
    EscapeState.Periodic ⟨fixed_point, 1, toUsize potential, multiplier, 1e-6⟩
  else
    -- Basilica bulb
    let mu2 := four_c + 4
    if Complex.normSq mu2 < 1 then
      let decay_rate := Complex.abs mu2
      let fixed_point := -0.5 - 0.5 * csqrt (-four_c - 3)
      let init_dist := Complex.normSq (c - fixed_point)
      let potential := 2 * Real.logb decay_rate init_dist
      EscapeState.Periodic ⟨fixed_point, 2, toUsize potential, mu2, 1e-6⟩
    else
      EscapeState.NotYetEscaped

/-- `Mandelbrot::cycles_child` for periods 1 and 2, which the source
computes in closed form.  Periods 3–6 delegate to `solve_polynomial`
from `dynamo_common::math_utils` (a crate not under verification here);
they are modelled as the unsupported default `[]`, which the claims do
not exercise. -/
def Mandelbrot.cycles_child (c : ℂ) (period : ℕ) : List ℂ :=
  match period with
  | 1 =>
    let u := csqrt (1 - 4 * c)
    [0.5 * (1 + u), 0.5 * (1 - u)]
  | 2 =>
    let u := csqrt (-3 - 4 * c)
    [0.5 * (-1 + u), -0.5 * (1 + u)]
  | _ => []

/-! ### Interior coloring: src/src/coloring/coloring_algorithm.rs -/

/-- τ = 2π (`TAU` from the common constants). -/
def TAU : ℝ := 2 * Real.pi

/-- `fn multiplier_coloring_rate`. -/
def multiplier_coloring_rate (multiplier : ℂ) : ℝ :=
  let scaling_rate := Complex.abs multiplier
  if scaling_rate > 1e-10 then -Real.logb 2 scaling_rate / 40 else 10

/-- `enum ColoringAlgorithm` (variants in source order). -/
inductive ColoringAlgorithm where
  | PeriodMultiplier
  | Period
  | Solid
  | PreperiodSmooth (periodicity_tolerance : ℝ)
  | Preperiod
  | Multiplier

/-- The `(hue, luminosity)` pair assigned by the `match` inside
`ColoringAlgorithm::encode_periodic`.  The `Solid` arm returns early in
the source before either variable is assigned; it is given the unused
placeholder `(0, 0)` here.  In the generic attracting arm the source
replaces an infinite or NaN `w` by `-0.2`; that guard has no counterpart
in exact real arithmetic (Mathlib's `Real.log 0 = 0` and `x / 0 = 0`
make `w` total), and no claim depends on the value of `w`. -/
def ColoringAlgorithm.encode_hue_lum (alg : ColoringAlgorithm)
    (period preperiod : ℕ) (multiplier final_error : ℂ) : ℝ × ℝ :=
  match alg with
  | .Solid => (0, 0)
  | .Period => ((period : ℝ), 1)
  | .PeriodMultiplier => ((period : ℝ), Complex.abs multiplier)
  | .Preperiod =>
    let coloring_rate : ℝ := 0.02
    let hue : ℝ := (period : ℝ)
    let v : ℝ := (preperiod : ℝ)
    (hue, Real.tanh (v * coloring_rate / hue))
  | .PreperiodSmooth periodicity_tolerance =>
    let hue : ℝ := (period : ℝ)
    let mult_norm := Complex.abs multiplier
    if mult_norm ≤ 1e-10 then
      -- Superattracting case
      let w := 2 * Real.logb 2
        (Real.logb 2 (Complex.normSq final_error) / Real.logb 2 periodicity_tolerance)
      let v := (preperiod : ℝ) - hue * w
      (hue, Real.tanh (0.1 * v / hue))
    else if 1 - mult_norm ≤ 1e-5 then
      -- Parabolic case
      let w := Complex.normSq final_error / periodicity_tolerance
      let v := (preperiod : ℝ) - hue * w
      (hue, Real.tanh (0.1 * v / hue))
    else
      let coloring_rate := multiplier_coloring_rate multiplier
      let w := -Real.logb mult_norm (Complex.normSq final_error / periodicity_tolerance)
      let v := (preperiod : ℝ) + hue * w
      (hue, Real.tanh (v * coloring_rate / hue))
  | .Multiplier => (multiplier.arg / TAU + 0.5, Complex.abs multiplier)

/-- `ColoringAlgorithm::encode_periodic`: `Solid` returns `0` outright;
every other variant returns `-(hue + 0.9999 * luminosity)`. -/
def ColoringAlgorithm.encode_periodic (alg : ColoringAlgorithm)
    (period preperiod : ℕ) (multiplier final_error : ℂ) : ℝ :=
  match alg with
  | .Solid => 0
  | _ =>
    let hl := alg.encode_hue_lum period preperiod multiplier final_error;
    -(hl.1 + 0.9999 * hl.2)

/-! ### Julia plane wrapper: src/core/src/dynamics/julia.rs

The parent family is the generic `T: ParameterPlane`.  The trait itself
lives in the core crate outside the verified sources, so the members
that julia.rs uses are modelled as record fields, with the associated
type `Var` instantiated at `ℂ` (julia.rs converts `Var` to and from
`Cplx` with `into()`), `Param` kept as an abstract type `P`, and a `f64`
degree that may be NaN represented as `Option ℝ` (`none` = NaN). -/

/-- Modelled from the spec: the capability set of the Dynamical Family
Contract that `JuliaSet` delegates to (the `ParameterPlane` trait is
declared outside src/). -/
structure ParamPlane (P : Type) where
  map : ℂ → P → ℂ
  mapAndMultiplier : ℂ → P → ℂ × ℂ
  paramMap : ℂ → P
  degree : Option ℝ
  escapingPeriod : ℕ
  pointGrid : PointGrid ℝ
  maxIter : ℕ
  minIter : ℕ
  defaultJuliaBounds : ℂ → P → Bounds ℝ

/-- `NoParam`, the parameter type of a Julia plane, is a unit type. -/
def NoParam : Type := Unit

/-- `struct JuliaSet<T>` (the `meta_params` field, unused by every
operation under verification, is omitted). -/
structure JuliaSet (P : Type) where
  point_grid : PointGrid ℝ
  max_iter : ℕ
  min_iter : ℕ
  parent : ParamPlane P
  local_param : P
  parent_selection : ℂ

/-- `JuliaSet::new`: fixes `local_param = parent.param_map(selection)`
and adopts the parent's Julia bounds at the parent's height. -/
def JuliaSet.new {P : Type} (parent : ParamPlane P) (parent_selection : ℂ) :
    JuliaSet P :=
  let local_param := parent.paramMap parent_selection
  { point_grid := parent.pointGrid.new_with_same_height
      (parent.defaultJuliaBounds parent_selection local_param)
    max_iter := parent.maxIter
    min_iter := parent.minIter
    parent := parent
    local_param := local_param
    parent_selection := parent_selection }

/-- `JuliaSet::map`: delegates to the parent at the fixed local
parameter, ignoring the (unit-typed) argument. -/
def JuliaSet.map {P : Type} (J : JuliaSet P) (z : ℂ) (_c : NoParam) : ℂ :=
  J.parent.map z J.local_param

/-- `JuliaSet::map_and_multiplier`. -/
def JuliaSet.map_and_multiplier {P : Type} (J : JuliaSet P) (z : ℂ) (_c : NoParam) :
    ℂ × ℂ :=
  J.parent.mapAndMultiplier z J.local_param

/-- `JuliaSet::map_and_multiplier_lazy`. -/
def JuliaSet.map_and_multiplier_lazy {P : Type} (J : JuliaSet P) (z : ℂ) : ℂ × ℂ :=
  J.parent.mapAndMultiplier z J.local_param

/-- `self.degree().powi(self.escaping_period() as i32)` with NaN as
`none`: IEEE `pown` maps NaN to NaN except at exponent 0, where it
returns 1. -/
def JuliaSet.degPow {P : Type} (J : JuliaSet P) : Option ℝ :=
  match J.parent.degree with
  | none => if J.parent.escapingPeriod = 0 then some 1 else none
  | some d => some (d ^ J.parent.escapingPeriod)

/-- The closure `fk_and_dfk` inside `external_ray`: iterate
`map_and_multiplier` `n` times, accumulating the derivative product. -/
def JuliaSet.fk_and_dfk {P : Type} (J : JuliaSet P) : ℕ → ℂ × ℂ → ℂ × ℂ
  | 0, zd => zd
  | n + 1, (z, d) =>
    let fd := J.map_and_multiplier_lazy z
    J.fk_and_dfk n (fd.1, d * fd.2)

/-- The signature of `newton_until_convergence_d` from
`fractal_common::math_utils` (not under src/): given a map-with-
derivative, a seed, a target and an error bound, produce
`(solution, z_k, d_k)`.  The ray-tracing claims hold for every such
routine, so it is universally quantified rather than modelled. -/
def NewtonRoutine : Type := (ℂ → ℂ × ℂ) → ℂ → ℂ → ℝ → ℂ × ℂ × ℂ

/-- The inner `for target in targets` loop of `external_ray`: solve for
each target, pushing each solution, and stop early once the estimated
distance to the true ray drops below the pixel width.  Returns the
extended polyline, the last solution, and the early-stop flag. -/
def rayInner (newton : NewtonRoutine) (fk : ℂ → ℂ × ℂ) (deg error pixel_width : ℝ) :
    List ℂ → ℂ → List ℂ → List ℂ × ℂ × Bool
  | [], temp_z, z_list => (z_list, temp_z, false)
  | target :: rest, temp_z, z_list =>
    let r := newton fk temp_z target error
    let sol := r.1
    let z_k := r.2.1
    let d_k := r.2.2
    let dist := 2 * Complex.abs z_k * Real.logb deg (Complex.abs z_k) / Complex.abs d_k
    let z_list2 := z_list ++ [sol]
    if dist < pixel_width then (z_list2, sol, true)
    else rayInner newton fk deg error pixel_width rest sol z_list2

/-- The outer `for k in 0..RAY_DEPTH` loop of `external_ray`; `rem` is
the number of remaining depth levels, `k` the current level, and `deg_k`
the running power `deg^k`. -/
def rayOuter {P : Type} (J : JuliaSet P) (newton : NewtonRoutine)
    (deg deg_log2 error pixel_width angle : ℝ) (sharpness : ℕ) :
    ℕ → ℕ → ℝ → List ℂ → Option (List ℂ)
  | 0, _k, _deg_k, z_list => some z_list
  | rem + 1, k, deg_k, z_list =>
    let us := (List.range sharpness).map fun j =>
      Real.log 400 * (2 : ℝ) ^ ((-(j : ℝ) * deg_log2) / (sharpness : ℝ))
    let targets := us.map fun u => Complex.exp ((u : ℂ) + (angle * deg_k : ℝ) * Complex.I)
    match z_list.getLast? with
    | none => none
    | some temp_z =>
      let fk := fun z => J.fk_and_dfk (k * J.parent.escapingPeriod) (z, 1)
      let r := rayInner newton fk deg error pixel_width targets temp_z z_list
      if r.2.2 then some r.1
      else rayOuter J newton deg deg_log2 error pixel_width angle sharpness
        rem (k + 1) (deg_k * deg) r.1

/-- `JuliaSet::external_ray`.  `depth` and `sharpness` are the global
constants `RAY_DEPTH` and `RAY_SHARPNESS` (declared outside src/), kept
as parameters; the claims hold for all values. -/
def JuliaSet.external_ray {P : Type} (J : JuliaSet P) (newton : NewtonRoutine)
    (depth sharpness : ℕ) (theta : ℝ) : Option (List ℂ) :=
  let escape_radius : ℝ := 400
  match J.degPow with
  | none => none
  | some deg =>
    let deg_log2 := Real.logb 2 deg
    let pixel_width := J.point_grid.pixel_width * 0.3
    let error := (J.point_grid.res_x : ℝ) * 1e-8
    let angle := theta * TAU
    let base_point := (escape_radius : ℂ) * Complex.exp ((angle : ℝ) * Complex.I)
    rayOuter J newton deg deg_log2 error pixel_width angle sharpness
      depth 0 1 [base_point]

end

/-! ### Palette holder: src/common/src/coloring.rs -/

/-- `struct Coloring` over an abstract algorithm type `A` and palette
type `Pal`. -/
structure Coloring (A Pal : Type) where
  algorithm : A
  palette : Pal
deriving DecidableEq

/-- `Coloring::load_palette`.  Modelled from the spec: file I/O is
represented by the outcome of `fs::read_to_string` (`none` = I/O error)
and TOML deserialization by a parse function (`none` = parse error);
the returned flag is `true` exactly on `Ok(())`.  Both `?` operators
return before the palette field is assigned. -/
def Coloring.load_palette {A Pal : Type} (c : Coloring A Pal)
    (read_result : Option String) (parse : String → Option Pal) :
    Coloring A Pal × Bool :=
  match read_result with
  | none => (c, false)
  | some content =>
    match parse content with
    | none => (c, false)
    | some palette => ({ c with palette := palette }, true)

/-! ### Helper lemmas -/

theorem toUsize_natCast (n : ℕ) : toUsize (n : K) = n := by
  simp [toUsize]

theorem csqrt_mul_self (z : ℂ) : csqrt z * csqrt z = z := by
  have h1 : (Real.sqrt (Complex.abs z) : ℂ) * (Real.sqrt (Complex.abs z) : ℂ)
      = (Complex.abs z : ℂ) := by
    rw [← Complex.ofReal_mul, Real.mul_self_sqrt (Complex.abs.nonneg z)]
  calc csqrt z * csqrt z
      = ((Real.sqrt (Complex.abs z) : ℂ) * (Real.sqrt (Complex.abs z) : ℂ)) *
        (Complex.exp ((z.arg / 2 : ℝ) * Complex.I) *
          Complex.exp ((z.arg / 2 : ℝ) * Complex.I)) := by
        unfold csqrt; ring
    _ = (Complex.abs z : ℂ) * Complex.exp ((z.arg : ℝ) * Complex.I) := by
        rw [h1, ← Complex.exp_add]
        congr 2
        push_cast
        ring
    _ = z := Complex.abs_mul_exp_arg_mul_I z

theorem csqrt_one : csqrt 1 = 1 := by
  simp [csqrt, Complex.arg_one]

/-- The basilica-bulb branch of `Mandelbrot::early_bailout` fires at
`c = -1` and reports the superattracting fixed point data. -/
theorem early_bailout_neg_one :
    Mandelbrot.early_bailout (-1) = EscapeState.Periodic ⟨-1, 2, 0, 0, 1e-6⟩ := by
  simp only [Mandelbrot.early_bailout]
  norm_num [Complex.mul_im, Complex.mul_re, Complex.normSq_apply, csqrt_one,
    Real.logb, Complex.abs_apply]
  simp [toUsize]

/-! ### The claims -/

/-- C1: the spec asserts that `PointGrid::iter` visits every lattice
index `(i, j)` with `0 ≤ i < res_x`, `0 ≤ j < res_y` exactly once, in
row-major order, `res_x * res_y` pairs in all.  The iterator advances
its counters *before* emitting, so on a 2×1 grid over `[0,2] × [0,1]`
the full traversal consists of the single pair `((1,0), 1+0i)`: the
lattice point `(0,0)` is never visited and only `res_x*res_y - 1 = 1`
pair is produced. -/
theorem C1_iterator_skips_origin :
    ((PointGrid.mk 2 1 (Bounds.mk 0 2 0 1) : PointGrid ℚ).iter.collect 3
        = [((1, 0), ⟨1, 0⟩)])
    ∧ ((PointGrid.mk 2 1 (Bounds.mk 0 2 0 1) : PointGrid ℚ).iter.collect 3).length ≠ 2 * 1
    ∧ ∀ p ∈ (PointGrid.mk 2 1 (Bounds.mk 0 2 0 1) : PointGrid ℚ).iter.collect 3,
        p.1 ≠ (0, 0) := by
  norm_num [PointGrid.iter, PointGridIterator.new, PointGridIterator.collect,
    PointGridIterator.next, Bounds.range_x, Bounds.range_y]

/-- C2: the spec asserts `locate_point_safe(z) = None` iff `z` lies
outside the bounds.  The guard compares `z.re` (not `z.im`) against
`min_y`, so on the grid over `[0,2] × [1,2]` the interior point
`1/2 + (3/2)i` is rejected (its real part is below `min_y`), while the
exterior point `3/2 + (1/2)i` (below the rectangle) is accepted. -/
theorem C2_locate_point_safe_wrong_axis :
    ((PointGrid.mk 2 2 (Bounds.mk 0 2 1 2) : PointGrid ℚ).locate_point_safe ⟨1/2, 3/2⟩ = none
      ∧ (Bounds.mk 0 2 1 2 : Bounds ℚ).min_x ≤ (1/2 : ℚ)
      ∧ (1/2 : ℚ) < (Bounds.mk 0 2 1 2 : Bounds ℚ).max_x
      ∧ (Bounds.mk 0 2 1 2 : Bounds ℚ).min_y ≤ (3/2 : ℚ)
      ∧ (3/2 : ℚ) < (Bounds.mk 0 2 1 2 : Bounds ℚ).max_y)
    ∧ ((PointGrid.mk 2 2 (Bounds.mk 0 2 1 2) : PointGrid ℚ).locate_point_safe ⟨3/2, 1/2⟩
          = some (1, 1)
      ∧ (1/2 : ℚ) < (Bounds.mk 0 2 1 2 : Bounds ℚ).min_y) := by
  norm_num [PointGrid.locate_point_safe, PointGrid.pixel_width, PointGrid.pixel_height,
    Bounds.range_x, Bounds.range_y, toUsize]
  decide

/-- C3 counterexample: on the 2×2 grid over `[-1,1]²` the composite
`map_pixel ∘ cast ∘ locate_point` at the center returns `0 - 1i`, a full
pixel height (1 unit, half the rectangle) below the center `0 + 0i` —
not within a floating-point rounding tolerance.  `locate_point` flips
the y-axis to screen coordinates while `map_pixel` does not. -/
theorem C3_counterexample :
    ((PointGrid.mk 2 2 (Bounds.mk (-1) 1 (-1) 1) : PointGrid ℚ).center_roundtrip
        = ⟨0, -1⟩)
    ∧ (Bounds.mk (-1) 1 (-1) 1 : Bounds ℚ).center = ⟨0, 0⟩
    ∧ (PointGrid.mk 2 2 (Bounds.mk (-1) 1 (-1) 1) : PointGrid ℚ).pixel_height = 1 := by
  norm_num [PointGrid.center_roundtrip, PointGrid.locate_point, PointGrid.map_pixel,
    PointGrid.pixel_width, PointGrid.pixel_height, Bounds.center, Bounds.mid_x,
    Bounds.mid_y, Bounds.range_x, Bounds.range_y, toUsize]

/-- C3 (amended): for a nondegenerate grid of even resolutions
`2a × 2b`, the round trip recovers the real coordinate of the center
exactly, while the imaginary coordinate comes back reflected into
screen coordinates: the result is `center - i·pixel_height`, i.e. the
round-trip law holds only in the real part. -/
theorem C3_roundtrip_amended (a b : ℕ) (bnds : Bounds ℚ) (ha : 1 ≤ a) (hb : 1 ≤ b)
    (hx : bnds.min_x < bnds.max_x) (hy : bnds.min_y < bnds.max_y) :
    (PointGrid.mk (2 * a) (2 * b) bnds).center_roundtrip
      = ⟨bnds.mid_x, bnds.mid_y - (PointGrid.mk (2 * a) (2 * b) bnds).pixel_height⟩ := by
  have hrx : bnds.max_x - bnds.min_x ≠ 0 := sub_ne_zero.mpr (ne_of_gt hx)
  have hry : bnds.max_y - bnds.min_y ≠ 0 := sub_ne_zero.mpr (ne_of_gt hy)
  have ha2 : ((2 * a : ℕ) : ℚ) ≠ 0 := Nat.cast_ne_zero.mpr (by omega)
  have hb2 : ((2 * b : ℕ) : ℚ) ≠ 0 := Nat.cast_ne_zero.mpr (by omega)
  have hxv : ((PointGrid.mk (2 * a) (2 * b) bnds).locate_point bnds.center).1 = (a : ℚ) := by
    simp only [PointGrid.locate_point, Bounds.center, Bounds.mid_x, PointGrid.pixel_width,
      Bounds.range_x]
    rw [div_div_eq_mul_div, div_eq_iff hrx]
    push_cast
    push_cast at ha2
    field_simp
    ring
  have hyv : ((PointGrid.mk (2 * a) (2 * b) bnds).locate_point bnds.center).2
      = ((b - 1 : ℕ) : ℚ) := by
    simp only [PointGrid.locate_point, Bounds.center, Bounds.mid_y, PointGrid.pixel_height,
      Bounds.range_y]
    have hby : ((bnds.max_y + bnds.min_y) / 2 - bnds.min_y)
        / ((bnds.max_y - bnds.min_y) / ((2 * b : ℕ) : ℚ)) = (b : ℚ) := by
      rw [div_div_eq_mul_div, div_eq_iff hry]
      push_cast
      push_cast at hb2
      field_simp
      ring
    rw [hby]
    push_cast [Nat.cast_sub hb]
    ring
  simp only [PointGrid.center_roundtrip, hxv, hyv, toUsize_natCast]
  simp only [PointGrid.map_pixel, PointGrid.pixel_width, PointGrid.pixel_height,
    Bounds.range_x, Bounds.range_y, Bounds.mid_x, Bounds.mid_y, Cplx.mk.injEq]
  constructor
  · push_cast
    push_cast at ha2
    field_simp
    ring
  · push_cast [Nat.cast_sub hb]
    push_cast at hb2
    field_simp
    ring

/-- C3 witness: the amended round-trip law evaluated on the concrete
2×2 grid over `[-1,1]²`. -/
theorem C3_roundtrip_amended_witness :
    (1 ≤ 1 ∧ (-1 : ℚ) < 1)
    ∧ (PointGrid.mk (2 * 1) (2 * 1) (Bounds.mk (-1) 1 (-1) 1) : PointGrid ℚ).center_roundtrip
      = ⟨(Bounds.mk (-1) 1 (-1) 1 : Bounds ℚ).mid_x,
         (Bounds.mk (-1) 1 (-1) 1 : Bounds ℚ).mid_y
           - (PointGrid.mk (2 * 1) (2 * 1) (Bounds.mk (-1) 1 (-1) 1) : PointGrid ℚ).pixel_height⟩ :=
  ⟨⟨le_refl 1, by norm_num⟩,
   C3_roundtrip_amended 1 1 (Bounds.mk (-1) 1 (-1) 1) (le_refl 1) (le_refl 1)
     (by norm_num) (by norm_num)⟩

/-- C4 counterexample: at `c = -1` the early bailout does classify the
orbit as periodic with period 2 on the cycle `{0, -1}`, but the reported
multiplier is `4c + 4 = 0` (the cycle is superattracting: the true
multiplier `f'(0)·f'(-1) = 0`), not approximately 4: its distance to 4
is exactly 4. -/
theorem C4_counterexample :
    ∃ d : PointInfoPeriodic, Mandelbrot.early_bailout (-1) = EscapeState.Periodic d
      ∧ d.period = 2 ∧ d.multiplier = 0 ∧ Complex.abs (d.multiplier - 4) = 4 := by
  refine ⟨⟨-1, 2, 0, 0, 1e-6⟩, early_bailout_neg_one, rfl, rfl, ?_⟩
  rw [show ((⟨-1, 2, 0, 0, 1e-6⟩ : PointInfoPeriodic).multiplier - 4) = -(4 : ℂ) by
    show (0 : ℂ) - 4 = -4; ring]
  rw [AbsoluteValue.map_neg]
  exact Complex.abs_ofNat 4

/-- C4 (amended): `early_bailout` at `c = -1` adopts the basilica-bulb
shortcut and classifies the origin as `Periodic` with `period = 2`,
cycle representative `value = -1` (the 2-cycle is `{0, -1}`), and
multiplier `4c + 4 = 0` — a superattracting cycle, consistent with the
orbit `f(0) = -1`, `f(-1) = 0` and derivative product
`df_dz(0)·df_dz(-1) = 0`. -/
theorem C4_origin_classification_amended :
    Mandelbrot.early_bailout (-1) = EscapeState.Periodic ⟨-1, 2, 0, 0, 1e-6⟩
    ∧ f 0 (-1) = -1 ∧ f (-1) (-1) = 0
    ∧ df_dz 0 (-1) * df_dz (-1) (-1) = 0 := by
  refine ⟨early_bailout_neg_one, ?_, ?_, ?_⟩ <;> simp [f, df_dz]

/-- C5: `Mandelbrot::cycles_child(c, 1)` returns exactly two values,
each a root of `z² - z + c`. -/
theorem C5_cycles_child_fixed_points (c : ℂ) (_h : 1 - 4 * c ≠ 0) :
    (Mandelbrot.cycles_child c 1).length = 2
    ∧ ∀ z ∈ Mandelbrot.cycles_child c 1, z * z - z + c = 0 := by
  have hu : csqrt (1 - 4 * c) * csqrt (1 - 4 * c) = 1 - 4 * c := csqrt_mul_self _
  refine ⟨rfl, ?_⟩
  intro z hz
  simp only [Mandelbrot.cycles_child, List.mem_cons, List.mem_singleton,
    List.not_mem_nil, or_false] at hz
  rcases hz with hz | hz <;> subst hz <;> linear_combination (1 / 4 : ℂ) * hu

/-- C5 witness: at `c = 0` the hypothesis holds and the two returned
values `1` and `0` are the fixed points of `z²`. -/
theorem C5_cycles_child_fixed_points_witness :
    ((1 : ℂ) - 4 * 0 ≠ 0)
    ∧ ((Mandelbrot.cycles_child 0 1).length = 2
        ∧ ∀ z ∈ Mandelbrot.cycles_child 0 1, z * z - z + 0 = 0) :=
  ⟨by norm_num, C5_cycles_child_fixed_points 0 (by norm_num)⟩

theorem rayInner_extends (newton : NewtonRoutine) (fk : ℂ → ℂ × ℂ)
    (deg error pw : ℝ) :
    ∀ (targets : List ℂ) (temp_z : ℂ) (z_list : List ℂ),
      ∃ t, (rayInner newton fk deg error pw targets temp_z z_list).1 = z_list ++ t := by
  intro targets
  induction targets with
  | nil =>
    intro temp_z z_list
    exact ⟨[], (List.append_nil _).symm⟩
  | cons target rest ih =>
    intro temp_z z_list
    simp only [rayInner]
    split
    · exact ⟨[(newton fk temp_z target error).1], rfl⟩
    · obtain ⟨t, ht⟩ := ih (newton fk temp_z target error).1
        (z_list ++ [(newton fk temp_z target error).1])
      exact ⟨[(newton fk temp_z target error).1] ++ t, by rw [ht, List.append_assoc]⟩

theorem rayOuter_extends {P : Type} (J : JuliaSet P) (newton : NewtonRoutine)
    (deg deg_log2 error pw angle : ℝ) (sharpness : ℕ) :
    ∀ (rem k : ℕ) (deg_k : ℝ) (z_list : List ℂ), z_list ≠ [] →
      ∃ t, rayOuter J newton deg deg_log2 error pw angle sharpness rem k deg_k z_list
        = some (z_list ++ t) := by
  intro rem
  induction rem with
  | zero =>
    intro k deg_k z_list _
    exact ⟨[], by simp [rayOuter]⟩
  | succ rem ih =>
    intro k deg_k z_list hne
    obtain ⟨last, hlast⟩ := Option.isSome_iff_exists.mp (List.getLast?_isSome.mpr hne)
    simp only [rayOuter, hlast]
    obtain ⟨t1, ht1⟩ := rayInner_extends newton _ deg error pw _ last z_list
    rw [ht1]
    split
    · exact ⟨t1, rfl⟩
    · obtain ⟨t2, ht2⟩ := ih (k + 1) (deg_k * deg) (z_list ++ t1)
        (fun hcon => hne (List.append_eq_nil.mp hcon).1)
      exact ⟨t1 ++ t2, by rw [ht2, List.append_assoc]⟩

/-- C6: `external_ray` returns `none` exactly when
`degree().powi(escaping_period())` is NaN (modelled by `Option`); in
every other case it returns a polyline whose head is the base point
`400 · exp(i·θ·2π)` on the initial circle.  The statement is
quantified over the Newton routine (defined outside src/), the depth
and the sharpness, so it holds regardless of their behavior. -/
theorem C6_external_ray_base (P : Type) (J : JuliaSet P) (newton : NewtonRoutine)
    (depth sharpness : ℕ) (theta : ℝ) :
    ∃ tail, J.external_ray newton depth sharpness theta
      = if J.degPow.isNone then none
        else some (((400 : ℝ) : ℂ) * Complex.exp (((theta * TAU : ℝ)) * Complex.I) :: tail) := by
  unfold JuliaSet.external_ray
  match h : J.degPow with
  | none => exact ⟨[], by simp [h]⟩
  | some deg =>
    obtain ⟨t, ht⟩ := rayOuter_extends J newton deg (Real.logb 2 deg)
      ((J.point_grid.res_x : ℝ) * 1e-8) (J.point_grid.pixel_width * 0.3) (theta * TAU)
      sharpness depth 0 1
      [((400 : ℝ) : ℂ) * Complex.exp (((theta * TAU : ℝ)) * Complex.I)]
      (by simp)
    exact ⟨t, by simp only [h, Option.isNone_some, Bool.false_eq_true, if_false, ht,
      List.cons_append, List.nil_append]⟩

/-- C7: the Julia plane delegates `map` and `map_and_multiplier` to its
parent at the local parameter fixed by `JuliaSet::new` from the
parent-plane selection, and the parameter argument passed to the child
(of the unit type `NoParam`) has no effect. -/
theorem C7_julia_delegates (P : Type) (parent : ParamPlane P) (sel z : ℂ)
    (p q : NoParam) :
    ((JuliaSet.new parent sel).map z p = parent.map z (parent.paramMap sel))
    ∧ ((JuliaSet.new parent sel).map_and_multiplier z p
        = parent.mapAndMultiplier z (parent.paramMap sel))
    ∧ (JuliaSet.new parent sel).local_param = parent.paramMap sel
    ∧ (JuliaSet.new parent sel).map z p = (JuliaSet.new parent sel).map z q
    ∧ (JuliaSet.new parent sel).map_and_multiplier z p
        = (JuliaSet.new parent sel).map_and_multiplier z q :=
  ⟨rfl, rfl, rfl, rfl, rfl⟩

theorem abs_tanh_lt_one (x : ℝ) : |Real.tanh x| < 1 := by
  rw [Real.tanh_eq_sinh_div_cosh, abs_div, abs_of_pos (Real.cosh_pos x),
    div_lt_one (Real.cosh_pos x)]
  nlinarith [Real.cosh_sq x, sq_abs (Real.sinh x), abs_nonneg (Real.sinh x),
    Real.cosh_pos x]

theorem neg_hue_tanh_lum_neg (hue x : ℝ) (h1 : 1 ≤ hue) :
    -(hue + 0.9999 * Real.tanh x) < 0 := by
  have ht := (abs_lt.mp (abs_tanh_lt_one x)).1
  linarith

/-- C8 counterexample: for the `Multiplier` (and `PeriodMultiplier`)
interior algorithms, `encode_periodic` uses the raw multiplier norm as
the luminosity — no tanh squashing — so at multiplier 5 the luminosity
is 5, outside `[-1, 1]`. -/
theorem C8_counterexample :
    (ColoringAlgorithm.Multiplier.encode_hue_lum 1 0 5 0).2 = 5
    ∧ (ColoringAlgorithm.PeriodMultiplier.encode_hue_lum 1 0 5 0).2 = 5
    ∧ ¬(|(ColoringAlgorithm.Multiplier.encode_hue_lum 1 0 5 0).2| ≤ 1) := by
  have h5 : (ColoringAlgorithm.Multiplier.encode_hue_lum 1 0 5 0).2 = 5 := by
    simp only [ColoringAlgorithm.encode_hue_lum]
    exact Complex.abs_ofNat 5
  have h5' : (ColoringAlgorithm.PeriodMultiplier.encode_hue_lum 1 0 5 0).2 = 5 := by
    simp only [ColoringAlgorithm.encode_hue_lum]
    exact Complex.abs_ofNat 5
  refine ⟨h5, h5', ?_⟩
  rw [h5]
  norm_num

/-- C8 (amended): the `Preperiod` and `PreperiodSmooth` interior
algorithms do pass their luminosity through the saturating `tanh`, so
it lies in `[-1, 1]` for all inputs; but `Multiplier` and
`PeriodMultiplier` encode the unsquashed multiplier norm, which is
unbounded (see the counterexample). -/
theorem C8_tanh_luminosity_amended (period preperiod : ℕ)
    (multiplier final_error : ℂ) (tol : ℝ) :
    |(ColoringAlgorithm.Preperiod.encode_hue_lum period preperiod multiplier
        final_error).2| ≤ 1
    ∧ |((ColoringAlgorithm.PreperiodSmooth tol).encode_hue_lum period preperiod
        multiplier final_error).2| ≤ 1 := by
  constructor
  · exact (abs_tanh_lt_one _).le
  · simp only [ColoringAlgorithm.encode_hue_lum]
    split
    · exact (abs_tanh_lt_one _).le
    · split
      · exact (abs_tanh_lt_one _).le
      · exact (abs_tanh_lt_one _).le

/-- C9: `Coloring::load_palette` leaves the in-memory palette (indeed
the whole `Coloring`) untouched whenever the read or the parse fails;
the palette is replaced only on success. -/
theorem C9_load_palette_preserves (A Pal : Type) (c : Coloring A Pal)
    (read_result : Option String) (parse : String → Option Pal)
    (h : (c.load_palette read_result parse).2 = false) :
    (c.load_palette read_result parse).1 = c := by
  cases read_result with
  | none => rfl
  | some content =>
    cases hp : parse content with
    | none => simp [Coloring.load_palette, hp]
    | some pal => simp [Coloring.load_palette, hp] at h

/-- C9 witness: a failing read leaves a concrete `Coloring` unchanged. -/
theorem C9_load_palette_preserves_witness :
    ((Coloring.mk 0 0 : Coloring ℕ ℕ).load_palette none (fun _ => none)).2 = false
    ∧ ((Coloring.mk 0 0 : Coloring ℕ ℕ).load_palette none (fun _ => none)).1
        = Coloring.mk 0 0 :=
  ⟨rfl, C9_load_palette_preserves ℕ ℕ (Coloring.mk 0 0) none (fun _ => none) rfl⟩

/-- C10: for every interior algorithm and every period ≥ 1,
`encode_periodic` is exactly 0 for `Solid` and strictly negative for
every other variant, so interior encodings are separated by sign from
the nonnegative escape potentials. -/
theorem C10_encode_periodic_sign (alg : ColoringAlgorithm) (period preperiod : ℕ)
    (multiplier final_error : ℂ) (h : 1 ≤ period) :
    ColoringAlgorithm.Solid.encode_periodic period preperiod multiplier final_error = 0
    ∧ (alg ≠ ColoringAlgorithm.Solid →
        alg.encode_periodic period preperiod multiplier final_error < 0) := by
  have hp : (1 : ℝ) ≤ (period : ℝ) := by exact_mod_cast h
  refine ⟨rfl, fun hne => ?_⟩
  cases alg with
  | Solid => exact absurd rfl hne
  | Period =>
    simp only [ColoringAlgorithm.encode_periodic, ColoringAlgorithm.encode_hue_lum]
    linarith
  | PeriodMultiplier =>
    simp only [ColoringAlgorithm.encode_periodic, ColoringAlgorithm.encode_hue_lum]
    have habs := Complex.abs.nonneg multiplier
    linarith
  | Preperiod =>
    simp only [ColoringAlgorithm.encode_periodic, ColoringAlgorithm.encode_hue_lum]
    exact neg_hue_tanh_lum_neg _ _ hp
  | PreperiodSmooth tol =>
    simp only [ColoringAlgorithm.encode_periodic, ColoringAlgorithm.encode_hue_lum]
    split
    · exact neg_hue_tanh_lum_neg _ _ hp
    · split
      · exact neg_hue_tanh_lum_neg _ _ hp
      · exact neg_hue_tanh_lum_neg _ _ hp
  | Multiplier =>
    simp only [ColoringAlgorithm.encode_periodic, ColoringAlgorithm.encode_hue_lum, TAU]
    have harg := Complex.neg_pi_lt_arg multiplier
    have habs := Complex.abs.nonneg multiplier
    have hpi := Real.pi_pos
    have h2pi : (0 : ℝ) < 2 * Real.pi := by linarith
    have h3 : multiplier.arg / (2 * Real.pi) * (2 * Real.pi) = multiplier.arg :=
      div_mul_cancel₀ _ (ne_of_gt h2pi)
    nlinarith [mul_nonneg habs hpi.le]

/-- C10 witness: the sign dichotomy at the `Period` algorithm with
period 1. -/
theorem C10_encode_periodic_sign_witness :
    (1 : ℕ) ≤ 1
    ∧ ColoringAlgorithm.Solid.encode_periodic 1 0 0 0 = 0
    ∧ ColoringAlgorithm.Period.encode_periodic 1 0 0 0 < 0 := by
  have h := C10_encode_periodic_sign ColoringAlgorithm.Period 1 0 0 0 (le_refl 1)
  exact ⟨le_refl 1, h.1, h.2 (fun hcon => ColoringAlgorithm.noConfusion hcon)⟩

end Fractal
